import Mathlib

/-!
# User management application: store, validation and list view

A shallow embedding of `src/store/usersSlice.js` (the Redux slice holding the
user collection) and of the pure parts of `src/App.jsx` (form validation in
`UserModal.handleSubmit` and `UserDetails.handleUpdate`, and the filter/sort
pipeline of `UsersList`), followed by theorems about them.

JavaScript strings are modelled as lists of characters.  The two
locale-dependent string primitives the program calls, `toLowerCase` and
`localeCompare`, are fields of a `JsRuntime` record together with the facts
ECMAScript guarantees about them, so that every theorem holds for whatever
engine runs the program; `asciiRuntime` is a concrete instance used to
evaluate examples.
-/

namespace UserManagement

/-! ## Strings -/

/-- A JavaScript string value. -/
abbrev JsString := List Char

/-- The characters matched by `\s` in a regular expression and stripped by
`String.prototype.trim`: ECMAScript WhiteSpace and LineTerminator. -/
def isJsWhitespace (c : Char) : Bool :=
  let n := c.toNat
  n == 0x09 || n == 0x0A || n == 0x0B || n == 0x0C || n == 0x0D || n == 0x20 ||
  n == 0xA0 || n == 0x1680 || (0x2000 ≤ n && n ≤ 0x200A) ||
  n == 0x2028 || n == 0x2029 || n == 0x202F || n == 0x205F || n == 0x3000 ||
  n == 0xFEFF

/-- Drop trailing white space. -/
def trimEnd (s : JsString) : JsString :=
  (s.reverse.dropWhile isJsWhitespace).reverse

/-- The method `String.prototype.trim`. -/
def trim (s : JsString) : JsString :=
  trimEnd (s.dropWhile isJsWhitespace)

/-- The method `String.prototype.includes`: `t` occurs in `s` as a contiguous
substring. -/
def includes : JsString → JsString → Bool
  | [], t => t.isEmpty
  | c :: s, t => t.isPrefixOf (c :: s) || includes s t

/-- The character class `[^\s@]`. -/
def notSpaceOrAt (c : Char) : Bool :=
  !isJsWhitespace c && c != '@'

/-- The test `/^[^\s@]+@[^\s@]+$/.test(s)`: a non-empty run of class
characters, an at sign, a non-empty run of class characters, and nothing
else. -/
def emailRegexTest (s : JsString) : Bool :=
  let localPart := s.takeWhile notSpaceOrAt
  match s.dropWhile notSpaceOrAt with
  | '@' :: domain => !localPart.isEmpty && !domain.isEmpty && domain.all notSpaceOrAt
  | _ => false

/-- The engine-dependent string primitives used by the program, with the
properties ECMAScript requires of them: lower-casing the empty string gives
the empty string, and `localeCompare` is a consistent comparison function
defining a total ordering on all strings. -/
structure JsRuntime where
  toLowerCase : JsString → JsString
  localeCompare : JsString → JsString → Int
  toLowerCase_nil : toLowerCase [] = []
  localeCompare_total : ∀ a b, localeCompare a b ≤ 0 ∨ localeCompare b a ≤ 0
  localeCompare_trans : ∀ a b c, localeCompare a b ≤ 0 → localeCompare b c ≤ 0 →
    localeCompare a c ≤ 0
  localeCompare_flip : ∀ a b, 0 < localeCompare a b ↔ localeCompare b a < 0

/-- Lower-case one character of the ASCII range. -/
def asciiLowerChar (c : Char) : Char :=
  if 'A'.toNat ≤ c.toNat ∧ c.toNat ≤ 'Z'.toNat then Char.ofNat (c.toNat + 32) else c

/-- Code point by code point comparison, returning `-1`, `0` or `1`. -/
def codePointCompare : JsString → JsString → Int
  | [], [] => 0
  | [], _ :: _ => -1
  | _ :: _, [] => 1
  | a :: s, b :: t =>
    if a.toNat < b.toNat then -1
    else if b.toNat < a.toNat then 1
    else codePointCompare s t

/-! ## Data model -/

/-- A record identifier: a number (fetched records, `Date.now()`) or a
string.  Equality is JavaScript strict equality. -/
inductive UserId where
  | num (n : Int)
  | str (s : JsString)
  deriving DecidableEq, Repr

/-- The `company` object of a record; only `name` is read by the program. -/
structure Company where
  name : Option JsString
  deriving DecidableEq, Repr

/-- A user record.  `none` is a missing (`undefined`) property. -/
structure User where
  id : UserId
  name : Option JsString := none
  email : Option JsString := none
  company : Option Company := none
  phone : Option JsString := none
  website : Option JsString := none
  deriving DecidableEq, Repr

/-- The slice state `{ list, status }`. -/
structure UsersState where
  list : List User
  status : String
  deriving DecidableEq, Repr

/-- The slice's `initialState`. -/
def initialState : UsersState :=
  { list := [], status := "idle" }

/-! ## Reducers (`usersSlice.js`) -/

/-- The method `Array.prototype.findIndex`; `none` stands for the result `-1`. -/
def findIndex {α : Type} (p : α → Bool) : List α → Option Nat
  | [] => none
  | x :: xs => if p x then some 0 else (findIndex p xs).map (· + 1)

/-- Reducer `addUser`: `state.list.unshift(action.payload)`. -/
def addUser (state : UsersState) (payload : User) : UsersState :=
  { state with list := payload :: state.list }

/-- Reducer `updateUser`: assign the payload at the index found, if any. -/
def updateUser (state : UsersState) (payload : User) : UsersState :=
  match findIndex (fun u => decide (u.id = payload.id)) state.list with
  | some index => { state with list := state.list.set index payload }
  | none => state

/-- Reducer `deleteUser`: keep the records whose id is not the payload. -/
def deleteUser (state : UsersState) (payload : UserId) : UsersState :=
  { state with list := state.list.filter (fun u => decide (u.id ≠ payload)) }

/-- The actions that reach the slice reducer: the three slice actions and the
three lifecycle actions of the `fetchUsers` thunk. -/
inductive Action where
  | addUser (payload : User)
  | updateUser (payload : User)
  | deleteUser (payload : UserId)
  | fetchUsersPending
  | fetchUsersFulfilled (payload : List User)
  | fetchUsersRejected
  deriving DecidableEq, Repr

/-- The slice reducer.  `extraReducers` registers a case for
`fetchUsers.fulfilled` only; an action without a case returns the state it
was given. -/
def reducer (state : UsersState) : Action → UsersState
  | .addUser payload => addUser state payload
  | .updateUser payload => updateUser state payload
  | .deleteUser payload => deleteUser state payload
  | .fetchUsersFulfilled payload => { state with list := payload, status := "success" }
  | .fetchUsersPending => state
  | .fetchUsersRejected => state

/-- The ids of the collection are pairwise distinct. -/
def DistinctIds (state : UsersState) : Prop :=
  (state.list.map User.id).Nodup

instance (state : UsersState) : Decidable (DistinctIds state) :=
  inferInstanceAs (Decidable (state.list.map User.id).Nodup)

/-! ## Form submission (`App.jsx`) -/

/-- The validation failures of the specification's taxonomy. -/
inductive ErrorKind where
  | MissingField
  | DuplicateName
  | InvalidEmail
  deriving DecidableEq, Repr

/-- What a submit handler does: show a validation message and return,
dispatch an action to the store, or abort on an uncaught `TypeError`. -/
inductive Outcome where
  | validationError (kind : ErrorKind) (message : String)
  | dispatched (action : Action)
  | typeError
  deriving DecidableEq, Repr

/-- The expression `v || d` for a string `v` that may be missing: `undefined`
and the empty string are falsy and give `d`. -/
def orDefault (v : Option JsString) (d : JsString) : JsString :=
  match v with
  | some s => if s.isEmpty then d else s
  | none => d

/-- The three inputs of `UserModal`; every one holds a string. -/
structure ModalForm where
  name : JsString
  email : JsString
  company : JsString
  deriving DecidableEq, Repr

/-- The inputs of `UserModal` as seeded from the record being edited:
`editUser?.name || ""`, `editUser?.email || ""` and
`editUser?.company?.name || ""`. -/
def modalInitialForm (editUser : Option User) : ModalForm :=
  { name := orDefault (editUser.bind User.name) [],
    email := orDefault (editUser.bind User.email) [],
    company := orDefault ((editUser.bind User.company).bind Company.name) [] }

/-- The three inputs of `UserDetails`.  The name and the email are seeded
without a fallback and are `undefined` (`none`) until typed into when the
record lacks them. -/
structure DetailsForm where
  editName : Option JsString
  editEmail : Option JsString
  editCompany : JsString
  deriving DecidableEq, Repr

/-- The inputs of `UserDetails` as seeded by its effect: `setEditName(user.name)`,
`setEditEmail(user.email)` and `setEditCompany(user.company?.name || "")`. -/
def detailsInitialForm (user : User) : DetailsForm :=
  { editName := user.name,
    editEmail := user.email,
    editCompany := orDefault (user.company.bind Company.name) [] }

/-- The call `users.some((u) => u.name.toLowerCase() === trimmedName.toLowerCase())`.
The callback reads `u.name.toLowerCase` and so throws a `TypeError` on a
record without a name; `none` is that abrupt completion.  `some` stops at the
first record for which the callback returns true. -/
def someNameEquals (rt : JsRuntime) (trimmedName : JsString) : List User → Option Bool
  | [] => some false
  | u :: users =>
    match u.name with
    | none => none
    | some n =>
      if rt.toLowerCase n = rt.toLowerCase trimmedName then some true
      else someNameEquals rt trimmedName users

/-- The handler `UserModal.handleSubmit`.  `editUser` is the record being edited
(`none` when the modal was opened to add a user), `users` the collection
read from the store, `now` the value of `Date.now()`, and `name`, `email`,
`company` the contents of the three inputs. -/
def handleSubmit (rt : JsRuntime) (editUser : Option User) (users : List User) (now : Int)
    (name email company : JsString) : Outcome :=
  let trimmedName := trim name
  let trimmedEmail := trim email
  let trimmedCompany := trim company
  if trimmedName.isEmpty || trimmedEmail.isEmpty || trimmedCompany.isEmpty then
    .validationError .MissingField "Please fill in Name, Email, and Company."
  else
    match (if editUser.isSome then some false else someNameEquals rt trimmedName users) with
    | none => .typeError
    | some true => .validationError .DuplicateName "A user with this name already exists."
    | some false =>
      if !emailRegexTest trimmedEmail then
        .validationError .InvalidEmail "Please enter a valid email address."
      else
        match editUser with
        | some user =>
          .dispatched (.updateUser { user with
            name := some trimmedName, email := some trimmedEmail,
            company := some { name := some trimmedCompany } })
        | none =>
          .dispatched (.addUser {
            id := .num now, name := some trimmedName, email := some trimmedEmail,
            company := some { name := some trimmedCompany } })

/-- The handler `UserDetails.handleUpdate` for the record `user` shown on the
detail page.  The condition `!editName.trim() || !editEmail.trim() ||
!editCompany.trim()` is evaluated left to right and stops at the first empty
trimmed value; calling `trim` on an input that is still `undefined` throws a
`TypeError`. -/
def handleUpdate (user : User) (editName editEmail : Option JsString)
    (editCompany : JsString) : Outcome :=
  match editName with
  | none => .typeError
  | some name =>
    if (trim name).isEmpty then
      .validationError .MissingField "Name, Email, and Company are required."
    else
      match editEmail with
      | none => .typeError
      | some email =>
        if (trim email).isEmpty || (trim editCompany).isEmpty then
          .validationError .MissingField "Name, Email, and Company are required."
        else if !emailRegexTest (trim email) then
          .validationError .InvalidEmail "Please enter a valid email address."
        else
          .dispatched (.updateUser { user with
            name := some (trim name), email := some (trim email),
            company := some { name := some (trim editCompany) } })

/-- The verdict of a handler, forgetting the wording of the message and the
record dispatched. -/
inductive Verdict where
  | accepted
  | rejected (kind : ErrorKind)
  | aborted
  deriving DecidableEq, Repr

/-- The verdict an outcome amounts to. -/
def Outcome.verdict : Outcome → Verdict
  | .validationError kind _ => .rejected kind
  | .dispatched _ => .accepted
  | .typeError => .aborted

/-! ## List view (`UsersList`) -/

/-- The expression `field?.toLowerCase().includes(search.toLowerCase())` as a
filter condition: the optional chain yields `undefined`, which is falsy, when
the field is missing. -/
def fieldIncludes (rt : JsRuntime) (field : Option JsString) (search : JsString) : Bool :=
  match field with
  | none => false
  | some v => includes (rt.toLowerCase v) (rt.toLowerCase search)

/-- The record matches the search text: its name or its email, lower-cased,
contains the lower-cased search text as a contiguous substring; a missing
field matches nothing. -/
def MatchesSearch (rt : JsRuntime) (u : User) (search : JsString) : Prop :=
  (∃ n, u.name = some n ∧ List.IsInfix (rt.toLowerCase search) (rt.toLowerCase n)) ∨
  (∃ e, u.email = some e ∧ List.IsInfix (rt.toLowerCase search) (rt.toLowerCase e))

/-- The array `filtered` before it is sorted. -/
def filterUsers (rt : JsRuntime) (users : List User) (search : JsString) : List User :=
  users.filter (fun u => fieldIncludes rt u.name search || fieldIncludes rt u.email search)

/-- The sort key `(a.name || "").toLowerCase()`. -/
def sortKey (rt : JsRuntime) (u : User) : JsString :=
  rt.toLowerCase (orDefault u.name [])

/-- The comparison function passed to `filtered.sort`. -/
def compareUsers (rt : JsRuntime) (sortAsc : Bool) (a b : User) : Int :=
  let va := sortKey rt a
  let vb := sortKey rt b
  if sortAsc then rt.localeCompare va vb else rt.localeCompare vb va

/-- The method `Array.prototype.sort` with a comparison function.  ECMAScript
requires the sort to be stable; for a consistent comparison function the
stable sorted arrangement is unique, and insertion sort computes it
(`a` stays before `b` when `comparefn(a, b) ≤ 0`). -/
def arraySort {α : Type} (comparefn : α → α → Int) (l : List α) : List α :=
  l.insertionSort (fun a b => comparefn a b ≤ 0)

/-- The array handed to the table as `dataSource`: filtered, then sorted. -/
def sortedUsers (rt : JsRuntime) (users : List User) (search : JsString) (sortAsc : Bool) :
    List User :=
  arraySort (compareUsers rt sortAsc) (filterUsers rt users search)

/-- The number of rows the table paginates over. -/
def totalCount (rt : JsRuntime) (users : List User) (search : JsString) (sortAsc : Bool) : Nat :=
  (sortedUsers rt users search sortAsc).length

/-! ## A concrete runtime -/

/-- A runtime that lower-cases the ASCII letters and compares by code point.
It agrees with every engine on strings of ASCII letters and digits. -/
def asciiRuntime : JsRuntime where
  toLowerCase := fun s => s.map asciiLowerChar
  localeCompare := codePointCompare
  toLowerCase_nil := rfl
  localeCompare_total := by
    intro a
    induction a with
    | nil => intro b; cases b <;> simp [codePointCompare]
    | cons x s ih =>
      intro b
      cases b with
      | nil => simp [codePointCompare]
      | cons y t =>
        simp only [codePointCompare]
        have := ih t
        split_ifs <;> omega
  localeCompare_trans := by
    intro a
    induction a with
    | nil => intro b c; cases b <;> cases c <;> simp [codePointCompare]
    | cons x s ih =>
      intro b c
      cases b with
      | nil => simp [codePointCompare]
      | cons y t =>
        cases c with
        | nil =>
          simp only [codePointCompare]
          split_ifs <;> simp
        | cons z w =>
          simp only [codePointCompare]
          have := ih t w
          split_ifs <;> omega
  localeCompare_flip := by
    intro a
    induction a with
    | nil => intro b; cases b <;> simp [codePointCompare]
    | cons x s ih =>
      intro b
      cases b with
      | nil => simp [codePointCompare]
      | cons y t =>
        simp only [codePointCompare]
        have := ih t
        split_ifs <;> omega

end UserManagement

/-! # Theorems -/

namespace UserManagement

/-! ## Auxiliary facts about lists -/

theorem findIndex_eq_none {α : Type} (p : α → Bool) (l : List α) :
    findIndex p l = none ↔ ∀ x ∈ l, p x = false := by
  induction l with
  | nil => simp [findIndex]
  | cons x xs ih =>
    by_cases h : p x = true
    · simp [findIndex, h]
    · simp [findIndex, h, ih]

theorem findIndex_cons {α : Type} (p : α → Bool) (x : α) (xs : List α) :
    findIndex p (x :: xs) = if p x = true then some 0 else (findIndex p xs).map (· + 1) :=
  rfl

theorem findIndex_eq_some {α : Type} (p : α → Bool) (l : List α) (i : Nat) :
    findIndex p l = some i ↔
      (∃ x, l[i]? = some x ∧ p x = true) ∧ ∀ j y, j < i → l[j]? = some y → p y = false := by
  induction l generalizing i with
  | nil => simp [findIndex]
  | cons x xs ih =>
    rw [findIndex_cons]
    by_cases h : p x = true
    · rw [if_pos h]
      cases i with
      | zero => simp [h]
      | succ n =>
        constructor
        · intro h0
          simp at h0
        · rintro ⟨_, h2⟩
          have := h2 0 x (Nat.succ_pos n) (by simp)
          simp [h] at this
    · rw [if_neg h]
      cases i with
      | zero =>
        constructor
        · intro h0
          simp at h0
        · rintro ⟨⟨y, hy, hpy⟩, _⟩
          simp only [List.getElem?_cons_zero, Option.some.injEq] at hy
          subst hy
          exact absurd hpy h
      | succ n =>
        rw [Option.map_eq_some']
        simp only [List.getElem?_cons_succ]
        constructor
        · rintro ⟨a, ha, han⟩
          have han2 : a = n := by omega
          subst han2
          obtain ⟨hx, hlt⟩ := (ih a).1 ha
          refine ⟨hx, ?_⟩
          intro j y hj hy
          cases j with
          | zero =>
            simp only [List.getElem?_cons_zero, Option.some.injEq] at hy
            subst hy
            simpa using h
          | succ k =>
            simp only [List.getElem?_cons_succ] at hy
            exact hlt k y (by omega) hy
        · rintro ⟨hx, hlt⟩
          refine ⟨n, (ih n).2 ⟨hx, ?_⟩, rfl⟩
          intro j y hj hy
          exact hlt (j + 1) y (by omega) (by simpa using hy)

/-- A filter is the largest sublist all of whose members pass the test. -/
theorem filter_largest_sublist {α : Type} (p : α → Bool) (l c : List α)
    (hc : List.Sublist c l) (hp : ∀ x ∈ c, p x = true) : List.Sublist c (l.filter p) := by
  have h := hc.filter p
  rwa [List.filter_eq_self.2 hp] at h

theorem map_id_set_of_findIndex (r : User) (l : List User) (i : Nat)
    (h : findIndex (fun u => decide (u.id = r.id)) l = some i) :
    (l.set i r).map User.id = l.map User.id := by
  obtain ⟨⟨x, hx, hpx⟩, _⟩ := (findIndex_eq_some _ l i).1 h
  have hid : x.id = r.id := by simpa using hpx
  rw [List.map_set]
  apply List.ext_getElem?
  intro k
  by_cases hk : i = k
  · subst hk
    rcases Nat.lt_or_ge i l.length with hlt | hge
    · rw [List.getElem?_set_self (by simpa using hlt)]
      simp [hx, hid]
    · rw [List.getElem?_eq_none (by simpa using hge)] at hx
      cases hx
  · rw [List.getElem?_set_ne hk]

theorem updateUser_list_of_findIndex (s : UsersState) (r : User) (i : Nat)
    (h : findIndex (fun u => decide (u.id = r.id)) s.list = some i) :
    updateUser s r = { s with list := s.list.set i r } := by
  simp only [updateUser, h]

theorem updateUser_of_findIndex_none (s : UsersState) (r : User)
    (h : findIndex (fun u => decide (u.id = r.id)) s.list = none) :
    updateUser s r = s := by
  simp only [updateUser, h]

theorem updateUser_map_id (s : UsersState) (r : User) :
    (updateUser s r).list.map User.id = s.list.map User.id := by
  cases h : findIndex (fun u => decide (u.id = r.id)) s.list with
  | none => rw [updateUser_of_findIndex_none s r h]
  | some i =>
    rw [updateUser_list_of_findIndex s r i h]
    exact map_id_set_of_findIndex r s.list i h

theorem updateUser_status (s : UsersState) (r : User) :
    (updateUser s r).status = s.status := by
  cases h : findIndex (fun u => decide (u.id = r.id)) s.list with
  | none => rw [updateUser_of_findIndex_none s r h]
  | some i => rw [updateUser_list_of_findIndex s r i h]

/-! ## The store -/

/-- C1: for every state `s` and record `r`, `addUser` yields the collection
`r` followed by the previous collection in its previous order: the size grows
by exactly one, `r` is the first element, the record that was at position `i`
is now at position `i + 1`, and the fetch status is unchanged. -/
theorem addUser_prepends (s : UsersState) (r : User) :
    (addUser s r).list = r :: s.list ∧
    (addUser s r).list.length = s.list.length + 1 ∧
    (addUser s r).list.head? = some r ∧
    (∀ i : Nat, (addUser s r).list[i + 1]? = s.list[i]?) ∧
    (addUser s r).status = s.status ∧
    reducer s (.addUser r) = addUser s r := by
  refine ⟨rfl, ?_, rfl, ?_, rfl, rfl⟩
  · simp [addUser]
  · intro i
    simp [addUser]

/-- C2: for every state `s` and record `r`, `updateUser` keeps the length of the
collection and the status; when the first record with id `r.id` is at index
`i`, the result holds `r` at index `i` and the previous record at every other
index (a later record with the same id included, as in the closing example);
when no record has id `r.id` the state is returned as it was. -/
theorem updateUser_replaces_first_match (s : UsersState) (r : User) :
    (updateUser s r).list.length = s.list.length ∧
    (updateUser s r).status = s.status ∧
    (∀ (i : Nat) (u : User), s.list[i]? = some u → u.id = r.id →
      (∀ (j : Nat) (v : User), j < i → s.list[j]? = some v → v.id ≠ r.id) →
      (updateUser s r).list[i]? = some r ∧
      ∀ k : Nat, k ≠ i → (updateUser s r).list[k]? = s.list[k]?) ∧
    ((∀ u ∈ s.list, u.id ≠ r.id) → updateUser s r = s) ∧
    reducer s (.updateUser r) = updateUser s r ∧
    (updateUser
        { list := [{ id := .num 7, name := some ['a'] }, { id := .num 3 },
                   { id := .num 7, name := some ['b'] }],
          status := "success" }
        { id := .num 7, name := some ['c'] }).list =
      [{ id := .num 7, name := some ['c'] }, { id := .num 3 },
       { id := .num 7, name := some ['b'] }] := by
  refine ⟨?_, ?_, ?_, ?_, rfl, by decide⟩
  · cases h : findIndex (fun u => decide (u.id = r.id)) s.list with
    | none => rw [updateUser_of_findIndex_none s r h]
    | some i => rw [updateUser_list_of_findIndex s r i h]; simp
  · cases h : findIndex (fun u => decide (u.id = r.id)) s.list with
    | none => rw [updateUser_of_findIndex_none s r h]
    | some i => rw [updateUser_list_of_findIndex s r i h]
  · intro i u hu hid hfirst
    have h : findIndex (fun u => decide (u.id = r.id)) s.list = some i := by
      rw [findIndex_eq_some]
      refine ⟨⟨u, hu, by simpa using hid⟩, ?_⟩
      intro j y hj hy
      simpa using hfirst j y hj hy
    rw [updateUser_list_of_findIndex s r i h]
    have hlt : i < s.list.length := by
      rcases Nat.lt_or_ge i s.list.length with hlt | hge
      · exact hlt
      · rw [List.getElem?_eq_none hge] at hu
        cases hu
    refine ⟨?_, ?_⟩
    · simp only
      rw [List.getElem?_set_self hlt]
    · intro k hk
      simp only
      rw [List.getElem?_set_ne (Ne.symm hk)]
  · intro hnone
    apply updateUser_of_findIndex_none
    rw [findIndex_eq_none]
    intro x hx
    simpa using hnone x hx

/-- C3: for every state `s` and id `i`, `deleteUser` yields exactly the records
of `s` whose id differs from `i` in their original order: the result is a
subsequence of the collection, none of its records has id `i`, every
subsequence of the collection free of id `i` is still a subsequence of the
result (nothing else is dropped or reordered), the collection is unchanged
when no record has id `i`, and the status is kept.  Deleting id 2 from
`[{id:1,name:"Bob"},{id:2,name:"Amy"}]` leaves `[{id:1,name:"Bob"}]`. -/
theorem deleteUser_removes_exactly (s : UsersState) (i : UserId) :
    List.Sublist (deleteUser s i).list s.list ∧
    (∀ u ∈ (deleteUser s i).list, u.id ≠ i) ∧
    (∀ u, u ∈ (deleteUser s i).list ↔ u ∈ s.list ∧ u.id ≠ i) ∧
    (∀ c, List.Sublist c s.list → (∀ u ∈ c, u.id ≠ i) →
      List.Sublist c (deleteUser s i).list) ∧
    ((∀ u ∈ s.list, u.id ≠ i) → deleteUser s i = s) ∧
    (deleteUser s i).status = s.status ∧
    reducer s (.deleteUser i) = deleteUser s i ∧
    (deleteUser
        { list := [{ id := .num 1, name := some "Bob".toList },
                   { id := .num 2, name := some "Amy".toList }],
          status := "success" } (.num 2)).list =
      [{ id := .num 1, name := some "Bob".toList }] := by
  refine ⟨?_, ?_, ?_, ?_, ?_, rfl, rfl, by decide⟩
  · exact List.filter_sublist _
  · intro u hu
    simpa using (List.mem_filter.1 hu).2
  · intro u
    simp [deleteUser, List.mem_filter]
  · intro c hc hfree
    exact filter_largest_sublist _ s.list c hc (fun x hx => by simpa using hfree x hx)
  · intro hnone
    have : s.list.filter (fun u => decide (u.id ≠ i)) = s.list :=
      List.filter_eq_self.2 (fun x hx => by simpa using hnone x hx)
    simp only [deleteUser, this]

/-- C4, as the code has it: the slice registers no case for the rejected
fetch, so a failed fetch returns the state it was given, collection and
status alike; and no sequence of actions starting from the initial state ever
produces the status "error": the status is "idle" or "success". -/
theorem fetch_rejected_leaves_state (s : UsersState) :
    reducer s .fetchUsersRejected = s ∧
    (reducer s .fetchUsersRejected).list = s.list ∧
    (reducer s .fetchUsersRejected).status = s.status ∧
    ∀ actions : List Action,
      (actions.foldl reducer initialState).status = "idle" ∨
      (actions.foldl reducer initialState).status = "success" := by
  refine ⟨rfl, rfl, rfl, ?_⟩
  have step : ∀ (t : UsersState) (a : Action),
      (t.status = "idle" ∨ t.status = "success") →
      ((reducer t a).status = "idle" ∨ (reducer t a).status = "success") := by
    intro t a ht
    cases a with
    | addUser payload => exact ht
    | updateUser payload =>
      have h2 := (updateUser_status t payload)
      simpa [reducer, h2] using ht
    | deleteUser payload => exact ht
    | fetchUsersPending => exact ht
    | fetchUsersFulfilled payload => exact Or.inr rfl
    | fetchUsersRejected => exact ht
  have gen : ∀ (actions : List Action) (t : UsersState),
      (t.status = "idle" ∨ t.status = "success") →
      ((actions.foldl reducer t).status = "idle" ∨
        (actions.foldl reducer t).status = "success") := by
    intro actions
    induction actions with
    | nil => intro t ht; exact ht
    | cons a rest ih => intro t ht; exact ih (reducer t a) (step t a ht)
  intro actions
  exact gen actions initialState (Or.inl rfl)

/-- C4, as stated, fails: after a rejected fetch in the initial state the
status is still "idle", not "error". -/
theorem fetch_rejected_status_not_error :
    ¬ ((reducer initialState .fetchUsersRejected).list = initialState.list ∧
       (reducer initialState .fetchUsersRejected).status = "error") := by
  decide

/-- C10, as the code has it: the initial collection has pairwise distinct ids,
and from a collection with pairwise distinct ids `updateUser` and
`deleteUser` keep them distinct for every payload, while `addUser` keeps
them distinct exactly when the id of the new record is not yet in the
collection and a fulfilled fetch exactly when the fetched ids are pairwise
distinct. -/
theorem distinctIds_preserved (s : UsersState) (h : DistinctIds s) :
    DistinctIds initialState ∧
    (∀ r : User, DistinctIds (reducer s (.updateUser r))) ∧
    (∀ i : UserId, DistinctIds (reducer s (.deleteUser i))) ∧
    (∀ r : User, DistinctIds (reducer s (.addUser r)) ↔ ∀ u ∈ s.list, u.id ≠ r.id) ∧
    (∀ l : List User,
      DistinctIds (reducer s (.fetchUsersFulfilled l)) ↔ (l.map User.id).Nodup) ∧
    DistinctIds (reducer s .fetchUsersPending) ∧
    DistinctIds (reducer s .fetchUsersRejected) := by
  refine ⟨by decide, ?_, ?_, ?_, ?_, h, h⟩
  · intro r
    show ((updateUser s r).list.map User.id).Nodup
    rw [updateUser_map_id]
    exact h
  · intro i
    show (((s.list.filter (fun u => decide (u.id ≠ i)))).map User.id).Nodup
    exact (List.Sublist.map User.id (List.filter_sublist _)).nodup h
  · intro r
    show ((r :: s.list).map User.id).Nodup ↔ _
    rw [List.map_cons, List.nodup_cons]
    constructor
    · rintro ⟨hnot, _⟩ u hu heq
      exact hnot (heq ▸ List.mem_map_of_mem User.id hu)
    · intro hfresh
      refine ⟨?_, h⟩
      intro hmem
      obtain ⟨u, hu, heq⟩ := List.mem_map.1 hmem
      exact hfresh u hu heq
  · intro l
    exact Iff.rfl

/-- The preservation theorem at the two-record collection with ids 1 and 2,
whose ids are pairwise distinct. -/
theorem distinctIds_preserved_witness :
    DistinctIds { list := [{ id := .num 1 }, { id := .num 2 }], status := "success" } ∧
    (DistinctIds initialState ∧
    (∀ r : User, DistinctIds (reducer
      { list := [{ id := .num 1 }, { id := .num 2 }], status := "success" } (.updateUser r))) ∧
    (∀ i : UserId, DistinctIds (reducer
      { list := [{ id := .num 1 }, { id := .num 2 }], status := "success" } (.deleteUser i))) ∧
    (∀ r : User, DistinctIds (reducer
      { list := [{ id := .num 1 }, { id := .num 2 }], status := "success" } (.addUser r)) ↔
        ∀ u ∈ ([{ id := .num 1 }, { id := .num 2 }] : List User), u.id ≠ r.id) ∧
    (∀ l : List User,
      DistinctIds (reducer
        { list := [{ id := .num 1 }, { id := .num 2 }], status := "success" }
        (.fetchUsersFulfilled l)) ↔ (l.map User.id).Nodup) ∧
    DistinctIds (reducer
      { list := [{ id := .num 1 }, { id := .num 2 }], status := "success" } .fetchUsersPending) ∧
    DistinctIds (reducer
      { list := [{ id := .num 1 }, { id := .num 2 }], status := "success" }
      .fetchUsersRejected)) :=
  ⟨by decide,
   distinctIds_preserved
     { list := [{ id := .num 1 }, { id := .num 2 }], status := "success" } (by decide)⟩

/-- C10, as stated, fails: `addUser` with an id already in the collection, and a
fulfilled fetch whose payload repeats an id, both leave two records with the
same id; and two valid submissions of the add form at the same clock reading
put two records with the same id into the initially empty collection. -/
theorem distinctIds_not_invariant :
    (DistinctIds { list := [{ id := .num 1, name := some "Bob".toList }], status := "success" } ∧
     ¬ DistinctIds (reducer
        { list := [{ id := .num 1, name := some "Bob".toList }], status := "success" }
        (.addUser { id := .num 1, name := some "Amy".toList }))) ∧
    ¬ DistinctIds (reducer initialState
        (.fetchUsersFulfilled [{ id := .num 1, name := some "Bob".toList },
                               { id := .num 1, name := some "Amy".toList }])) ∧
    (∃ a b : User,
      handleSubmit asciiRuntime none initialState.list 1700000000000
        "Amy".toList "a@x.com".toList "Acme".toList = .dispatched (.addUser a) ∧
      handleSubmit asciiRuntime none (reducer initialState (.addUser a)).list 1700000000000
        "Bob".toList "b@x.com".toList "Acme".toList = .dispatched (.addUser b) ∧
      ¬ DistinctIds (reducer (reducer initialState (.addUser a)) (.addUser b))) := by
  refine ⟨by decide, by decide, ?_⟩
  refine ⟨{ id := .num 1700000000000, name := some "Amy".toList,
            email := some "a@x.com".toList, company := some { name := some "Acme".toList } },
          { id := .num 1700000000000, name := some "Bob".toList,
            email := some "b@x.com".toList, company := some { name := some "Acme".toList } },
          by decide, by decide, by decide⟩

/-! ## Validation -/

theorem notSpaceOrAt_iff (c : Char) :
    notSpaceOrAt c = true ↔ isJsWhitespace c = false ∧ c ≠ '@' := by
  simp [notSpaceOrAt]

/-- C6, as the code has it: the email check accepts `e` exactly when `e` is a
non-empty run of characters that are neither white space nor an at sign, then
an at sign, then another non-empty run of such characters; so "a@b.com" is
accepted and "not-an-email", "@b", "a@" and "a b@c" are rejected. -/
theorem emailRegexTest_iff (e : JsString) :
    (emailRegexTest e = true ↔
      ∃ l d : JsString, l ≠ [] ∧ d ≠ [] ∧
        (∀ c ∈ l, isJsWhitespace c = false ∧ c ≠ '@') ∧
        (∀ c ∈ d, isJsWhitespace c = false ∧ c ≠ '@') ∧
        e = l ++ '@' :: d) ∧
    emailRegexTest "a@b.com".toList = true ∧
    emailRegexTest "not-an-email".toList = false ∧
    emailRegexTest "@b".toList = false ∧
    emailRegexTest "a@".toList = false ∧
    emailRegexTest "a b@c".toList = false := by
  refine ⟨?_, by decide, by decide, by decide, by decide, by decide⟩
  constructor
  · intro h
    unfold emailRegexTest at h
    have hsplit : e.takeWhile notSpaceOrAt ++ e.dropWhile notSpaceOrAt = e :=
      List.takeWhile_append_dropWhile _ _
    cases hd : e.dropWhile notSpaceOrAt with
    | nil => simp [hd] at h
    | cons x d =>
      by_cases hx : x = '@'
      · subst hx
        simp only [hd, Bool.and_eq_true, Bool.not_eq_true', List.isEmpty_eq_false,
          List.all_eq_true] at h
        obtain ⟨⟨hl, hdne⟩, hall⟩ := h
        refine ⟨e.takeWhile notSpaceOrAt, d, ?_, ?_, ?_, ?_, ?_⟩
        · intro hnil
          simp [hnil] at hl
        · intro hnil
          simp [hnil] at hdne
        · intro c hc
          exact (notSpaceOrAt_iff c).1 (List.mem_takeWhile_imp hc)
        · intro c hc
          exact (notSpaceOrAt_iff c).1 (hall c hc)
        · rw [← hd, hsplit]
      · rw [hd] at h
        split at h
        · rename_i heq
          injection heq with h1 _
          exact absurd h1 hx
        · cases h
  · rintro ⟨l, d, hl, hd, hlall, hdall, rfl⟩
    have hl2 : ∀ c ∈ l, notSpaceOrAt c = true := fun c hc => (notSpaceOrAt_iff c).2 (hlall c hc)
    have hd2 : ∀ c ∈ d, notSpaceOrAt c = true := fun c hc => (notSpaceOrAt_iff c).2 (hdall c hc)
    have hat : notSpaceOrAt '@' = false := by decide
    have htake : (l ++ '@' :: d).takeWhile notSpaceOrAt = l := by
      rw [List.takeWhile_append_of_pos hl2]
      simp [List.takeWhile_cons, hat]
    have hdrop : (l ++ '@' :: d).dropWhile notSpaceOrAt = '@' :: d := by
      rw [List.dropWhile_append_of_pos hl2]
      simp [List.dropWhile_cons, hat]
    unfold emailRegexTest
    rw [hdrop, htake]
    cases l with
    | nil => exact absurd rfl hl
    | cons a l2 =>
      cases d with
      | nil => exact absurd rfl hd
      | cons b d2 =>
        simp only [List.isEmpty_cons, Bool.not_false, Bool.true_and, List.all_eq_true]
        exact hd2

/-- C6, as stated, fails: "a@b@c" is already trimmed and is a non-empty run of
non-whitespace characters, an at sign and another non-empty run of
non-whitespace characters, yet the email check rejects it. -/
theorem emailRegexTest_rejects_second_at :
    trim "a@b@c".toList = "a@b@c".toList ∧
    ¬ (emailRegexTest "a@b@c".toList = true ↔
      ∃ l d : JsString, l ≠ [] ∧ d ≠ [] ∧
        (∀ c ∈ l, isJsWhitespace c = false) ∧
        (∀ c ∈ d, isJsWhitespace c = false) ∧
        "a@b@c".toList = l ++ '@' :: d) := by
  refine ⟨by decide, ?_⟩
  intro h
  have hacc : emailRegexTest "a@b@c".toList = true :=
    h.2 ⟨['a'], ['b', '@', 'c'], by decide, by decide, by decide, by decide, by decide⟩
  revert hacc
  decide

theorem handleSubmit_edit_eq (rt : JsRuntime) (user : User) (users : List User) (now : Int)
    (name email company : JsString) :
    handleSubmit rt (some user) users now name email company =
      if (trim name).isEmpty || (trim email).isEmpty || (trim company).isEmpty then
        .validationError .MissingField "Please fill in Name, Email, and Company."
      else if !emailRegexTest (trim email) then
        .validationError .InvalidEmail "Please enter a valid email address."
      else
        .dispatched (.updateUser { user with
          name := some (trim name), email := some (trim email),
          company := some { name := some (trim company) } }) := by
  simp only [handleSubmit, Option.isSome_some, if_true]

theorem handleSubmit_create_eq (rt : JsRuntime) (users : List User) (now : Int)
    (name email company : JsString) :
    handleSubmit rt none users now name email company =
      if (trim name).isEmpty || (trim email).isEmpty || (trim company).isEmpty then
        .validationError .MissingField "Please fill in Name, Email, and Company."
      else
        match someNameEquals rt (trim name) users with
        | none => .typeError
        | some true => .validationError .DuplicateName "A user with this name already exists."
        | some false =>
          if !emailRegexTest (trim email) then
            .validationError .InvalidEmail "Please enter a valid email address."
          else
            .dispatched (.addUser {
              id := .num now, name := some (trim name), email := some (trim email),
              company := some { name := some (trim company) } }) := by
  simp only [handleSubmit, Option.isSome_none, Bool.false_eq_true, if_false]

theorem handleUpdate_on_strings_eq (user : User) (name email company : JsString) :
    handleUpdate user (some name) (some email) company =
      if (trim name).isEmpty || (trim email).isEmpty || (trim company).isEmpty then
        .validationError .MissingField "Name, Email, and Company are required."
      else if !emailRegexTest (trim email) then
        .validationError .InvalidEmail "Please enter a valid email address."
      else
        .dispatched (.updateUser { user with
          name := some (trim name), email := some (trim email),
          company := some { name := some (trim company) } }) := by
  simp only [handleUpdate]
  cases h1 : (trim name).isEmpty <;> cases h2 : (trim email).isEmpty <;>
    cases h3 : (trim company).isEmpty <;> rfl

/-- Update validation on inputs that all hold strings is create validation
without the duplicate-name check.  For every existing collection,
`UserModal.handleSubmit` in edit mode and `UserDetails.handleUpdate` reach
the same verdict, which is also the verdict of the create submission against
an empty collection; it is `MissingField`, `InvalidEmail` or acceptance; and
on acceptance both paths dispatch `updateUser` with the record being edited
carrying the trimmed name, the trimmed email and the company of the trimmed
company name.  An update to a name another record already has is accepted. -/
theorem update_paths_agree_on_strings (rt : JsRuntime) (user : User)
    (users : List User) (now : Int) (name email company : JsString) :
    (handleSubmit rt (some user) users now name email company).verdict =
      (handleUpdate user (some name) (some email) company).verdict ∧
    (handleSubmit rt (some user) users now name email company).verdict =
      (handleSubmit rt none [] now name email company).verdict ∧
    ((handleUpdate user (some name) (some email) company).verdict = .rejected .MissingField ∨
     (handleUpdate user (some name) (some email) company).verdict = .rejected .InvalidEmail ∨
     (handleUpdate user (some name) (some email) company).verdict = .accepted) ∧
    ((handleUpdate user (some name) (some email) company).verdict = .accepted →
      handleUpdate user (some name) (some email) company =
        .dispatched (.updateUser { user with
          name := some (trim name), email := some (trim email),
          company := some { name := some (trim company) } }) ∧
      handleSubmit rt (some user) users now name email company =
        handleUpdate user (some name) (some email) company) ∧
    handleSubmit asciiRuntime (some { id := .num 2, name := some "Bob".toList })
        [{ id := .num 1, name := some "Amy".toList },
         { id := .num 2, name := some "Bob".toList }]
        0 " amy ".toList "b@x.com".toList "Acme".toList =
      .dispatched (.updateUser {
        id := .num 2, name := some "amy".toList,
        email := some "b@x.com".toList, company := some { name := some "Acme".toList } }) := by
  rw [handleSubmit_edit_eq, handleSubmit_create_eq, handleUpdate_on_strings_eq]
  refine ⟨?_, ?_, ?_, ?_, by decide⟩
  · split_ifs <;> rfl
  · simp only [someNameEquals]
    split_ifs <;> rfl
  · split_ifs <;> simp [Outcome.verdict]
  · split_ifs <;> simp [Outcome.verdict]

/-- C7, evaluated on records lacking a name or an email.  The detail page
seeds its name and email inputs from the record without a fallback, so with
the form as seeded `handleUpdate` aborts on the call of `trim`, for every
company typed in; the modal seeds the same fields with the empty string and
reports `MissingField` on the same record, as does create validation against
an empty collection on the same values. -/
theorem handleUpdate_aborts_on_nameless_record (rt : JsRuntime) (users : List User)
    (now : Int) :
    detailsInitialForm { id := .num 11, email := some "x@y.z".toList } =
      { editName := none, editEmail := some "x@y.z".toList, editCompany := [] } ∧
    (∀ company : JsString,
      handleUpdate { id := .num 11, email := some "x@y.z".toList }
        none (some "x@y.z".toList) company = .typeError) ∧
    modalInitialForm (some { id := .num 11, email := some "x@y.z".toList }) =
      { name := [], email := "x@y.z".toList, company := [] } ∧
    handleSubmit rt (some { id := .num 11, email := some "x@y.z".toList }) users now
        [] "x@y.z".toList [] =
      .validationError .MissingField "Please fill in Name, Email, and Company." ∧
    (handleSubmit rt none [] now [] "x@y.z".toList []).verdict = .rejected .MissingField ∧
    detailsInitialForm {
        id := .num 12, name := some "Bob".toList,
        company := some { name := some "Acme".toList } } =
      { editName := some "Bob".toList, editEmail := none, editCompany := "Acme".toList } ∧
    handleUpdate {
        id := .num 12, name := some "Bob".toList,
        company := some { name := some "Acme".toList } }
      (some "Bob".toList) none "Acme".toList = .typeError ∧
    handleSubmit rt (some {
        id := .num 12, name := some "Bob".toList,
        company := some { name := some "Acme".toList } }) users now
        "Bob".toList [] "Acme".toList =
      .validationError .MissingField "Please fill in Name, Email, and Company." := by
  refine ⟨by decide, fun _ => rfl, by decide, ?_, ?_, by decide, by decide, ?_⟩
  · rw [handleSubmit_edit_eq]
    rfl
  · rw [handleSubmit_create_eq]
    rfl
  · rw [handleSubmit_edit_eq]
    have h : ((trim "Bob".toList).isEmpty || (trim ([] : JsString)).isEmpty ||
        (trim "Acme".toList).isEmpty) = true := by decide
    rw [if_pos h]

theorem someNameEquals_of_named (rt : JsRuntime) (t : JsString) (users : List User)
    (hnamed : ∀ u ∈ users, u.name ≠ none) :
    (someNameEquals rt t users = some true ∧
      ∃ u ∈ users, ∃ n, u.name = some n ∧ rt.toLowerCase n = rt.toLowerCase t) ∨
    (someNameEquals rt t users = some false ∧
      ¬ ∃ u ∈ users, ∃ n, u.name = some n ∧ rt.toLowerCase n = rt.toLowerCase t) := by
  induction users with
  | nil => right; simp [someNameEquals]
  | cons u rest ih =>
    have hrest : ∀ v ∈ rest, v.name ≠ none := fun v hv => hnamed v (List.mem_cons_of_mem u hv)
    cases hn : u.name with
    | none => exact absurd hn (hnamed u (List.mem_cons_self u rest))
    | some n =>
      by_cases heq : rt.toLowerCase n = rt.toLowerCase t
      · left
        refine ⟨by simp [someNameEquals, hn, heq], u, List.mem_cons_self u rest, n, hn, heq⟩
      · have hstep : someNameEquals rt t (u :: rest) = someNameEquals rt t rest := by
          simp [someNameEquals, hn, heq]
        rw [hstep]
        rcases ih hrest with ⟨h1, v, hv, m, hm, hvm⟩ | ⟨h1, h2⟩
        · left
          exact ⟨h1, v, List.mem_cons_of_mem u hv, m, hm, hvm⟩
        · right
          refine ⟨h1, ?_⟩
          rintro ⟨v, hv, m, hm, hvm⟩
          rcases List.mem_cons.1 hv with rfl | hv2
          · rw [hn] at hm
            injection hm with hm2
            exact heq (hm2 ▸ hvm)
          · exact h2 ⟨v, hv2, m, hm, hvm⟩

/-- The create submission on a collection in which every record has a name:
`MissingField` if a trimmed field is empty; otherwise `DuplicateName` if the
lower-cased trimmed name equals the lower-cased name of an existing record;
otherwise `InvalidEmail` if the trimmed email fails the pattern; otherwise
`addUser` is dispatched with the trimmed values. -/
theorem handleSubmit_create_on_named_records (rt : JsRuntime) (users : List User) (now : Int)
    (name email company : JsString) (hnamed : ∀ u ∈ users, u.name ≠ none) :
    ((trim name = [] ∨ trim email = [] ∨ trim company = []) →
      handleSubmit rt none users now name email company =
        .validationError .MissingField "Please fill in Name, Email, and Company.") ∧
    (¬ (trim name = [] ∨ trim email = [] ∨ trim company = []) →
      (∃ u ∈ users, ∃ n, u.name = some n ∧ rt.toLowerCase n = rt.toLowerCase (trim name)) →
      handleSubmit rt none users now name email company =
        .validationError .DuplicateName "A user with this name already exists.") ∧
    (¬ (trim name = [] ∨ trim email = [] ∨ trim company = []) →
      (¬ ∃ u ∈ users, ∃ n, u.name = some n ∧ rt.toLowerCase n = rt.toLowerCase (trim name)) →
      emailRegexTest (trim email) = false →
      handleSubmit rt none users now name email company =
        .validationError .InvalidEmail "Please enter a valid email address.") ∧
    (¬ (trim name = [] ∨ trim email = [] ∨ trim company = []) →
      (¬ ∃ u ∈ users, ∃ n, u.name = some n ∧ rt.toLowerCase n = rt.toLowerCase (trim name)) →
      emailRegexTest (trim email) = true →
      handleSubmit rt none users now name email company =
        .dispatched (.addUser {
          id := .num now, name := some (trim name), email := some (trim email),
          company := some { name := some (trim company) } })) := by
  rw [handleSubmit_create_eq]
  have hdec : ((trim name).isEmpty || (trim email).isEmpty || (trim company).isEmpty) = true ↔
      (trim name = [] ∨ trim email = [] ∨ trim company = []) := by
    simp [List.isEmpty_iff, or_assoc]
  refine ⟨?_, ?_, ?_, ?_⟩
  · intro hmiss
    rw [if_pos (hdec.2 hmiss)]
  · intro hmiss hdup
    rw [if_neg (fun h => hmiss (hdec.1 h))]
    rcases someNameEquals_of_named rt (trim name) users hnamed with ⟨h1, _⟩ | ⟨_, h2⟩
    · rw [h1]
    · exact absurd hdup h2
  · intro hmiss hdup hbad
    rw [if_neg (fun h => hmiss (hdec.1 h))]
    rcases someNameEquals_of_named rt (trim name) users hnamed with ⟨_, h2⟩ | ⟨h1, _⟩
    · exact absurd h2 hdup
    · rw [h1]
      simp [hbad]
  · intro hmiss hdup hok
    rw [if_neg (fun h => hmiss (hdec.1 h))]
    rcases someNameEquals_of_named rt (trim name) users hnamed with ⟨_, h2⟩ | ⟨h1, _⟩
    · exact absurd h2 hdup
    · rw [h1]
      simp [hok]

/-- The three worked examples of create validation. -/
theorem handleSubmit_create_examples :
    (handleSubmit asciiRuntime none [] 0 "".toList "a@b.com".toList "Acme".toList).verdict =
      .rejected .MissingField ∧
    (handleSubmit asciiRuntime none [] 0 "Bob".toList "not-an-email".toList
      "Acme".toList).verdict = .rejected .InvalidEmail ∧
    (handleSubmit asciiRuntime none [{ id := .num 1, name := some "amy".toList }] 0
      "Amy".toList "a@b.com".toList "Acme".toList).verdict = .rejected .DuplicateName := by
  refine ⟨by decide, by decide, by decide⟩

/-- C5, evaluated on a collection holding a record without a name: with
valid, non-duplicate inputs the create submission neither reports a
validation error nor dispatches `addUser`; the name comparison inside
`users.some` throws, for every engine and every clock reading. -/
theorem handleSubmit_create_aborts_on_nameless_record (rt : JsRuntime) (now : Int) :
    handleSubmit rt none [{ id := .num 11, email := some "x@y.z".toList }] now
      "Bob".toList "a@b.com".toList "Acme".toList = .typeError ∧
    trim "Bob".toList ≠ [] ∧ trim "a@b.com".toList ≠ [] ∧ trim "Acme".toList ≠ [] ∧
    emailRegexTest (trim "a@b.com".toList) = true ∧
    (∀ u ∈ ([{ id := .num 11, email := some "x@y.z".toList }] : List User),
      ∀ n, u.name = some n → rt.toLowerCase n ≠ rt.toLowerCase (trim "Bob".toList)) := by
  refine ⟨?_, by decide, by decide, by decide, by decide, ?_⟩
  · rw [handleSubmit_create_eq]
    have h : ((trim "Bob".toList).isEmpty || (trim "a@b.com".toList).isEmpty ||
        (trim "Acme".toList).isEmpty) = false := by decide
    rw [h]
    simp [someNameEquals]
  · intro u hu n hn
    simp only [List.mem_singleton] at hu
    subst hu
    cases hn

/-! ## The list view -/

theorem includes_iff (s t : JsString) : includes s t = true ↔ List.IsInfix t s := by
  induction s with
  | nil => simp [includes, List.isEmpty_iff]
  | cons c s ih =>
    rw [includes, Bool.or_eq_true, List.isPrefixOf_iff_prefix, ih, List.infix_cons_iff]

theorem fieldIncludes_iff (rt : JsRuntime) (field : Option JsString) (search : JsString) :
    fieldIncludes rt field search = true ↔
      ∃ v, field = some v ∧ List.IsInfix (rt.toLowerCase search) (rt.toLowerCase v) := by
  cases field with
  | none => simp [fieldIncludes]
  | some v => simp [fieldIncludes, includes_iff]

theorem filter_test_iff (rt : JsRuntime) (u : User) (search : JsString) :
    (fieldIncludes rt u.name search || fieldIncludes rt u.email search) = true ↔
      MatchesSearch rt u search := by
  rw [Bool.or_eq_true, fieldIncludes_iff, fieldIncludes_iff]
  rfl

theorem fieldIncludes_empty (rt : JsRuntime) (field : Option JsString) :
    fieldIncludes rt field [] = field.isSome := by
  cases field with
  | none => rfl
  | some v =>
    have h : includes (rt.toLowerCase v) [] = true := (includes_iff _ _).2 List.nil_infix
    simp [fieldIncludes, rt.toLowerCase_nil, h]

/-- C8, as the code has it: the filter keeps a record exactly when its name or
its email contains the search text as a substring after both are
lower-cased, a missing field matching nothing; the kept records are a
subsequence of the collection, in collection order, and every subsequence of
matching records survives.  With empty search text the records kept are
those that have a name or an email, so a collection in which every record
has one of the two is kept whole. -/
theorem filterUsers_keeps_matches (rt : JsRuntime) (users : List User) (search : JsString) :
    List.Sublist (filterUsers rt users search) users ∧
    (∀ u, u ∈ filterUsers rt users search ↔ u ∈ users ∧ MatchesSearch rt u search) ∧
    (∀ c, List.Sublist c users → (∀ u ∈ c, MatchesSearch rt u search) →
      List.Sublist c (filterUsers rt users search)) ∧
    filterUsers rt users [] = users.filter (fun u => u.name.isSome || u.email.isSome) ∧
    ((∀ u ∈ users, u.name ≠ none ∨ u.email ≠ none) → filterUsers rt users [] = users) ∧
    (∀ u ∈ users, u.name = none → u.email = none → u ∉ filterUsers rt users search) := by
  refine ⟨List.filter_sublist _, ?_, ?_, ?_, ?_, ?_⟩
  · intro u
    rw [filterUsers, List.mem_filter, filter_test_iff]
  · intro c hc hm
    exact filter_largest_sublist _ users c hc (fun u hu => (filter_test_iff rt u search).2 (hm u hu))
  · simp only [filterUsers, fieldIncludes_empty]
  · intro hall
    simp only [filterUsers, fieldIncludes_empty]
    apply List.filter_eq_self.2
    intro u hu
    rcases hall u hu with h | h
    · cases hn : u.name with
      | none => exact absurd hn h
      | some n => rfl
    · cases he : u.email with
      | none => exact absurd he h
      | some e => simp
  · intro u _ hn he hmem
    rw [filterUsers, List.mem_filter, filter_test_iff] at hmem
    rcases hmem.2 with ⟨n, h, _⟩ | ⟨e, h, _⟩
    · rw [hn] at h; cases h
    · rw [he] at h; cases h

/-- C8, as stated, fails: with empty search text a record that has neither a
name nor an email is filtered out. -/
theorem filterUsers_empty_search_drops_record :
    filterUsers asciiRuntime [{ id := .num 1, phone := some "555".toList }] [] = [] ∧
    filterUsers asciiRuntime [{ id := .num 1, phone := some "555".toList }] [] ≠
      [{ id := .num 1, phone := some "555".toList }] := by
  constructor <;> decide

theorem compareUsers_total (rt : JsRuntime) (sortAsc : Bool) (a b : User) :
    compareUsers rt sortAsc a b ≤ 0 ∨ compareUsers rt sortAsc b a ≤ 0 := by
  cases sortAsc
  · simpa [compareUsers] using rt.localeCompare_total (sortKey rt b) (sortKey rt a)
  · simpa [compareUsers] using rt.localeCompare_total (sortKey rt a) (sortKey rt b)

theorem compareUsers_trans (rt : JsRuntime) (sortAsc : Bool) (a b c : User)
    (hab : compareUsers rt sortAsc a b ≤ 0) (hbc : compareUsers rt sortAsc b c ≤ 0) :
    compareUsers rt sortAsc a c ≤ 0 := by
  cases sortAsc
  · simp only [compareUsers, Bool.false_eq_true, if_false] at hab hbc ⊢
    exact rt.localeCompare_trans _ _ _ hbc hab
  · simp only [compareUsers, if_true] at hab hbc ⊢
    exact rt.localeCompare_trans _ _ _ hab hbc

theorem localeCompare_tie_symm (rt : JsRuntime) (a b : JsString)
    (h : rt.localeCompare a b = 0) : rt.localeCompare b a = 0 := by
  have h1 := rt.localeCompare_flip a b
  have h2 := rt.localeCompare_flip b a
  have h3 : ¬ rt.localeCompare b a < 0 := fun hlt => by
    have := h1.2 hlt
    omega
  have h4 : ¬ 0 < rt.localeCompare b a := fun hgt => by
    have := h2.1 hgt
    omega
  omega

theorem arraySort_perm {α : Type} (comparefn : α → α → Int) (l : List α) :
    (arraySort comparefn l).Perm l :=
  List.perm_insertionSort _ l

theorem arraySort_sorted {α : Type} (comparefn : α → α → Int)
    (htotal : ∀ a b, comparefn a b ≤ 0 ∨ comparefn b a ≤ 0)
    (htrans : ∀ a b c, comparefn a b ≤ 0 → comparefn b c ≤ 0 → comparefn a c ≤ 0)
    (l : List α) :
    (arraySort comparefn l).Pairwise (fun a b => comparefn a b ≤ 0) := by
  haveI : IsTotal α (fun a b => comparefn a b ≤ 0) := ⟨htotal⟩
  haveI : IsTrans α (fun a b => comparefn a b ≤ 0) := ⟨htrans⟩
  exact List.sorted_insertionSort (fun a b => comparefn a b ≤ 0) l

theorem arraySort_stable {α : Type} (comparefn : α → α → Int) (l c : List α)
    (hc : List.Sublist c l) (hties : c.Pairwise (fun a b => comparefn a b ≤ 0)) :
    List.Sublist c (arraySort comparefn l) :=
  List.sublist_insertionSort hties hc

theorem orderedInsert_swap {α : Type} (r : α → α → Prop) [DecidableRel r]
    (htrans : ∀ a b c, r a b → r b c → r a c) (a b : α) (hab : r a b) (hba : ¬ r b a)
    (l : List α) :
    List.orderedInsert r b (List.orderedInsert r a l) =
      List.orderedInsert r a (List.orderedInsert r b l) := by
  induction l with
  | nil => simp [List.orderedInsert, hab, hba]
  | cons y l ih =>
    by_cases hay : r a y
    · by_cases hby : r b y
      · simp [List.orderedInsert, hay, hby, hab, hba]
      · simp [List.orderedInsert, hay, hby, hba]
    · have hby : ¬ r b y := fun h => hay (htrans a b y hab h)
      simp [List.orderedInsert, hay, hby, ih]

theorem insertionSort_move_front {α : Type} (r : α → α → Prop) [DecidableRel r]
    (htrans : ∀ a b c, r a b → r b c → r a c) (a : α) (pre post : List α)
    (hpre : ∀ b ∈ pre, r a b ∧ ¬ r b a) :
    List.insertionSort r (pre ++ a :: post) = List.insertionSort r (a :: (pre ++ post)) := by
  induction pre with
  | nil => rfl
  | cons b pre ih =>
    have hb := hpre b (List.mem_cons_self b pre)
    have hrest : ∀ c ∈ pre, r a c ∧ ¬ r c a := fun c hc => hpre c (List.mem_cons_of_mem b hc)
    calc List.insertionSort r (b :: pre ++ a :: post)
        = List.orderedInsert r b (List.insertionSort r (pre ++ a :: post)) := rfl
      _ = List.orderedInsert r b (List.insertionSort r (a :: (pre ++ post))) := by rw [ih hrest]
      _ = List.orderedInsert r b (List.orderedInsert r a (List.insertionSort r (pre ++ post))) :=
          rfl
      _ = List.orderedInsert r a (List.orderedInsert r b (List.insertionSort r (pre ++ post))) :=
          orderedInsert_swap r htrans a b hb.1 hb.2 _
      _ = List.insertionSort r (a :: (b :: pre ++ post)) := rfl

/-- Sorting a list that was first sorted by another comparison function gives
the same array as sorting the list directly, provided the other function only
lets `b` overtake `a` when the first function puts `a` strictly before `b`. -/
theorem arraySort_after_arraySort {α : Type} (f g : α → α → Int)
    (htrans : ∀ a b c, f a b ≤ 0 → f b c ≤ 0 → f a c ≤ 0)
    (hfg : ∀ a b, ¬ g a b ≤ 0 → f a b ≤ 0 ∧ ¬ f b a ≤ 0) (l : List α) :
    arraySort f (arraySort g l) = arraySort f l := by
  unfold arraySort
  induction l with
  | nil => rfl
  | cons a l ih =>
    have hsplit := List.orderedInsert_eq_take_drop (fun x y => g x y ≤ 0) a
      (List.insertionSort (fun x y => g x y ≤ 0) l)
    have hpre : ∀ b ∈ (List.insertionSort (fun x y => g x y ≤ 0) l).takeWhile
        (fun b => decide (¬ g a b ≤ 0)), f a b ≤ 0 ∧ ¬ f b a ≤ 0 := by
      intro b hb
      have := List.mem_takeWhile_imp hb
      exact hfg a b (by simpa using this)
    calc List.insertionSort (fun x y => f x y ≤ 0)
          (List.insertionSort (fun x y => g x y ≤ 0) (a :: l))
        = List.insertionSort (fun x y => f x y ≤ 0)
            ((List.insertionSort (fun x y => g x y ≤ 0) l).takeWhile
                (fun b => decide (¬ g a b ≤ 0)) ++
              a :: (List.insertionSort (fun x y => g x y ≤ 0) l).dropWhile
                (fun b => decide (¬ g a b ≤ 0))) := by
          rw [← hsplit]; rfl
      _ = List.insertionSort (fun x y => f x y ≤ 0)
            (a :: ((List.insertionSort (fun x y => g x y ≤ 0) l).takeWhile
                (fun b => decide (¬ g a b ≤ 0)) ++
              (List.insertionSort (fun x y => g x y ≤ 0) l).dropWhile
                (fun b => decide (¬ g a b ≤ 0)))) :=
          insertionSort_move_front (fun x y => f x y ≤ 0) htrans a _ _ hpre
      _ = List.insertionSort (fun x y => f x y ≤ 0)
            (a :: List.insertionSort (fun x y => g x y ≤ 0) l) := by
          rw [List.takeWhile_append_dropWhile]
      _ = List.orderedInsert (fun x y => f x y ≤ 0) a
            (List.insertionSort (fun x y => f x y ≤ 0)
              (List.insertionSort (fun x y => g x y ≤ 0) l)) := rfl
      _ = List.orderedInsert (fun x y => f x y ≤ 0) a
            (List.insertionSort (fun x y => f x y ≤ 0) l) := by rw [ih]
      _ = List.insertionSort (fun x y => f x y ≤ 0) (a :: l) := rfl

theorem compareUsers_overtake (rt : JsRuntime) (sortAsc : Bool) (a b : User)
    (h : ¬ compareUsers rt (!sortAsc) a b ≤ 0) :
    compareUsers rt sortAsc a b ≤ 0 ∧ ¬ compareUsers rt sortAsc b a ≤ 0 := by
  cases sortAsc
  · simp only [compareUsers, Bool.not_false, if_true, Bool.false_eq_true, if_false] at h ⊢
    have := (rt.localeCompare_flip (sortKey rt a) (sortKey rt b)).1 (by omega)
    constructor <;> omega
  · simp only [compareUsers, Bool.not_true, if_true, Bool.false_eq_true, if_false] at h ⊢
    have := (rt.localeCompare_flip (sortKey rt b) (sortKey rt a)).1 (by omega)
    constructor <;> omega

theorem orDefault_nil (v : Option JsString) : orDefault v [] = v.getD [] := by
  cases v with
  | none => rfl
  | some t =>
    cases t with
    | nil => rfl
    | cons c t => rfl

theorem sortKey_eq (rt : JsRuntime) (u : User) :
    sortKey rt u = rt.toLowerCase (u.name.getD []) := by
  rw [sortKey, orDefault_nil]

theorem sortedUsers_by_sortKey (rt : JsRuntime) (users : List User) (search : JsString)
    (sortAsc : Bool) :
    (sortAsc = true → (sortedUsers rt users search sortAsc).Pairwise
      (fun a b => rt.localeCompare (sortKey rt a) (sortKey rt b) ≤ 0)) ∧
    (sortAsc = false → (sortedUsers rt users search sortAsc).Pairwise
      (fun a b => 0 ≤ rt.localeCompare (sortKey rt a) (sortKey rt b))) ∧
    (∀ c, List.Sublist c (filterUsers rt users search) →
      c.Pairwise (fun a b => rt.localeCompare (sortKey rt a) (sortKey rt b) = 0) →
      List.Sublist c (sortedUsers rt users search sortAsc)) := by
  have hsorted := arraySort_sorted (compareUsers rt sortAsc) (compareUsers_total rt sortAsc)
    (compareUsers_trans rt sortAsc) (filterUsers rt users search)
  refine ⟨?_, ?_, ?_⟩
  · intro hasc
    subst hasc
    simpa [compareUsers] using hsorted
  · intro hdesc
    subst hdesc
    refine List.Pairwise.imp ?_ hsorted
    intro a b hab
    simp only [compareUsers, Bool.false_eq_true, if_false] at hab
    by_contra hneg
    have hlt : rt.localeCompare (sortKey rt a) (sortKey rt b) < 0 := by omega
    have := (rt.localeCompare_flip (sortKey rt b) (sortKey rt a)).2 hlt
    omega
  · intro c hc hties
    apply arraySort_stable _ _ c hc
    refine List.Pairwise.imp ?_ hties
    intro a b hab
    cases sortAsc
    · simp only [compareUsers, Bool.false_eq_true, if_false]
      exact le_of_eq (localeCompare_tie_symm rt _ _ hab)
    · simp only [compareUsers, if_true]
      exact le_of_eq hab

/-- C9: the list shown is a permutation of the filtered records ordered by the
lower-cased name, a missing name counting as the empty string: no record
precedes one whose lower-cased name `localeCompare` puts before its own when
the sort is ascending, nor one whose lower-cased name `localeCompare` puts
after its own when descending.  The sort is stable in both directions:
filtered records whose lower-cased names compare equal keep their relative
filtered order.  Flipping the direction twice shows the same sequence again,
also when the list shown in the opposite direction is what gets sorted back;
and the count is the number of filtered records.  On
`[{id:1,name:"Bob"},{id:2,name:"Amy"}]` with empty search and ascending sort
the list is `[Amy, Bob]` and the count is 2.  On the names b, B, a (ids 1, 2,
3, with emails in the opposite order) the ascending list is 3, 1, 2 and the
descending list 1, 2, 3; a record without a name sorts first ascending and
last descending. -/
theorem sortedUsers_sorted_stable (rt : JsRuntime) (users : List User) (search : JsString)
    (sortAsc : Bool) :
    (sortedUsers rt users search sortAsc).Perm (filterUsers rt users search) ∧
    (sortAsc = true → (sortedUsers rt users search sortAsc).Pairwise
      (fun a b =>
        rt.localeCompare (rt.toLowerCase (a.name.getD [])) (rt.toLowerCase (b.name.getD [])) ≤
          0)) ∧
    (sortAsc = false → (sortedUsers rt users search sortAsc).Pairwise
      (fun a b =>
        0 ≤
          rt.localeCompare (rt.toLowerCase (a.name.getD [])) (rt.toLowerCase (b.name.getD [])))) ∧
    (∀ c, List.Sublist c (filterUsers rt users search) →
      c.Pairwise (fun a b =>
        rt.localeCompare (rt.toLowerCase (a.name.getD [])) (rt.toLowerCase (b.name.getD [])) =
          0) →
      List.Sublist c (sortedUsers rt users search sortAsc)) ∧
    sortedUsers rt users search (!(!sortAsc)) = sortedUsers rt users search sortAsc ∧
    arraySort (compareUsers rt sortAsc) (sortedUsers rt users search (!sortAsc)) =
      sortedUsers rt users search sortAsc ∧
    totalCount rt users search sortAsc = (filterUsers rt users search).length ∧
    sortedUsers asciiRuntime
        [{ id := .num 1, name := some "Bob".toList, email := some "b@x.com".toList },
         { id := .num 2, name := some "Amy".toList, email := some "a@x.com".toList }] [] true =
      [{ id := .num 2, name := some "Amy".toList, email := some "a@x.com".toList },
       { id := .num 1, name := some "Bob".toList, email := some "b@x.com".toList }] ∧
    totalCount asciiRuntime
        [{ id := .num 1, name := some "Bob".toList, email := some "b@x.com".toList },
         { id := .num 2, name := some "Amy".toList, email := some "a@x.com".toList }] [] true =
      2 ∧
    (sortedUsers asciiRuntime
        [{ id := .num 1, name := some "b".toList, email := some "x@x.com".toList },
         { id := .num 2, name := some "B".toList, email := some "y@x.com".toList },
         { id := .num 3, name := some "a".toList, email := some "z@x.com".toList }]
        [] true).map User.id = [.num 3, .num 1, .num 2] ∧
    (sortedUsers asciiRuntime
        [{ id := .num 1, name := some "b".toList, email := some "x@x.com".toList },
         { id := .num 2, name := some "B".toList, email := some "y@x.com".toList },
         { id := .num 3, name := some "a".toList, email := some "z@x.com".toList }]
        [] false).map User.id = [.num 1, .num 2, .num 3] ∧
    (sortedUsers asciiRuntime
        [{ id := .num 1, name := some "Amy".toList, email := some "a@x.com".toList },
         { id := .num 2, email := some "zed@x.com".toList }]
        [] true).map User.id = [.num 2, .num 1] ∧
    (sortedUsers asciiRuntime
        [{ id := .num 2, email := some "zed@x.com".toList },
         { id := .num 1, name := some "Amy".toList, email := some "a@x.com".toList }]
        [] false).map User.id = [.num 1, .num 2] := by
  obtain ⟨hasc, hdesc, hstable⟩ := sortedUsers_by_sortKey rt users search sortAsc
  simp only [sortKey_eq] at hasc hdesc hstable
  refine ⟨arraySort_perm _ _, hasc, hdesc, hstable, ?_, ?_, ?_,
    by decide, by decide, by decide, by decide, by decide, by decide⟩
  · rw [Bool.not_not]
  · exact arraySort_after_arraySort _ _ (compareUsers_trans rt sortAsc)
      (compareUsers_overtake rt sortAsc) _
  · exact (arraySort_perm _ _).length_eq

end UserManagement
